import Mathlib

/-!
Verification of the slide-viewer annotation subsystem.

This file gives a shallow embedding, in Lean 4, of the annotation logic of
the slide-viewer repository (the `AnnotationManager` module together with the
small slices of `ZipLoader` it consults), and settles the behavioural claims
about it.

Modelling conventions, used throughout:

* JavaScript strings are Lean `String`s (or `List Char` inside the JSON
  codec); JS `null`/`undefined` values of string-valued record fields are
  `Option.none`.
* JS numbers that the embedded code manipulates are embedded as `ℚ`
  (geometry: every concrete input used below is exactly representable as a
  binary float, so no rounding is lost) or as `Int`/`Nat` (mouse
  coordinates and `offsetLeft`/`offsetTop`, which the DOM reports as
  integers).
* The browser's `localStorage` is a value passed in and returned; the
  platform pair `JSON.stringify`/`JSON.parse` is embedded as an executable
  printer and parser over a JSON value type covering the fragment the
  annotation wire format uses (objects, arrays, strings, null).
* The SVG document is an explicit element tree (`Elem`); DOM traversals
  (`getElementById`, `querySelectorAll`, child filtering) are pure
  functions over that tree in document (pre-)order.
-/

namespace SlideViewer

/-! ### Characters and small string utilities -/

/-- Left curly brace character, written numerically. -/
def lbrace : Char := Char.ofNat 123

/-- Right curly brace character, written numerically. -/
def rbrace : Char := Char.ofNat 125

/-- JSON insignificant whitespace, as accepted by `JSON.parse`. -/
def isJsonWs (c : Char) : Bool :=
  c = ' ' || c = '\n' || c = '\t' || c = '\r'

/-- Whitespace for the purposes of JavaScript `String.prototype.trim`
(ASCII part plus the common Unicode space characters). -/
def isJsWs (c : Char) : Bool :=
  c = ' ' || c = '\n' || c = '\t' || c = '\r' ||
  c = Char.ofNat 11 || c = Char.ofNat 12 || c = Char.ofNat 160

/-- JavaScript `s.trim()`: strip leading and trailing whitespace. -/
def jsTrim (s : String) : String :=
  ⟨((s.data.dropWhile (fun c => isJsWs c)).reverse.dropWhile
      (fun c => isJsWs c)).reverse⟩

/-- JavaScript `s.includes(pat)` (substring test). -/
def hasSub (s pat : String) : Bool :=
  decide (pat.data <:+: s.data)

/-- Decimal digit test for the sibling-index regex. -/
def isDig (c : Char) : Bool := '0' ≤ c && c ≤ '9'

/-- Value of a decimal digit string, as `parseInt` computes it on an
all-digit input. -/
def digitsVal (ds : List Char) : Nat :=
  ds.foldl (fun acc c => acc * 10 + (c.toNat - '0'.toNat)) 0

/-- JavaScript `s.split(sep)` for a single-character separator: split a
character list at every occurrence of `sep`, keeping empty pieces (so the
leading `/` of a path yields a leading empty part, as in JS). -/
def splitOnChar (sep : Char) : List Char → List (List Char)
  | [] => [[]]
  | c :: cs =>
      if c = sep then [] :: splitOnChar sep cs
      else
        match splitOnChar sep cs with
        | [] => [[c]]
        | p :: ps => (c :: p) :: ps

/-! ### JSON values

The annotation wire format (persisted collection) uses only objects,
arrays, strings and `null`, so the JSON value type is restricted to that
fragment. Objects keep their fields as an ordered association list, which
is exactly the insertion order JavaScript preserves for the non-integral
keys (`"slide-<N>"`, record field names) this format uses. -/

inductive JVal where
  | jnull
  | jstr (s : String)
  | jarr (es : List JVal)
  | jobj (ms : List (String × JVal))
deriving Inhabited

/-- JavaScript truthiness of a parsed JSON value (`null` and `""` are
falsy; arrays and objects are truthy). -/
def truthy : JVal → Bool
  | .jnull => false
  | .jstr s => s ≠ ""
  | .jarr _ => true
  | .jobj _ => true

/-- JavaScript `typeof v === 'object'` for a parsed JSON value: true for
objects, arrays and `null`, false for strings. -/
def typeofObject : JVal → Bool
  | .jnull => true
  | .jstr _ => false
  | .jarr _ => true
  | .jobj _ => true

/-! ### Startup load priority (`AnnotationManager` constructor)

`AnnotationManager.constructor` (src/unnamed/part_003, lines 28-47)
chooses the initial collection:

* with a `zipLoader`: use `zipLoader.getAnnotations()` if truthy,
  otherwise `loadPersistedAnnotations()`; the local default file is never
  fetched;
* without one: `loadAnnotationsFromFile()` first, falling back to
  `loadPersistedAnnotations()` when that fails.

Each external source is modelled by `Option (Option JVal)`: `none` means
the source is absent (no zip supplied / HTTP 404 / no localStorage key),
`some none` means it was present but yielded nothing usable before the
shape check (zip without an annotation payload — `ZipLoader.getAnnotations`
returns `null`; a fetch or parse error), and `some (some v)` means it
produced the parsed JSON value `v`. -/

/-- Which source the constructor ended up using. -/
inductive LoadSource where
  | fromZip
  | fromFile
  | fromStorage
deriving DecidableEq, Repr

/-- `AnnotationManager.loadPersistedAnnotations` (lines 856-891): read the
`slideViewerAnnotations` key, `JSON.parse` it, keep the result if it is a
truthy object, otherwise leave the empty collection. -/
def loadPersistedAnnotations (saved : Option (Option JVal)) : JVal :=
  match saved with
  | some (some v) => if truthy v && typeofObject v then v else .jobj []
  | _ => .jobj []

/-- `AnnotationManager.loadAnnotationsFromFile` (lines 815-851), reduced to
its result: `some v` when the fetch succeeded, parsed, and
`data && typeof data === 'object'` held, `none` otherwise. -/
def loadAnnotationsFromFile (file : Option (Option JVal)) : Option JVal :=
  match file with
  | some (some v) => if truthy v && typeofObject v then some v else none
  | _ => none

/-- The constructor's choice of initial collection (lines 28-47), with the
source it came from. -/
def initialAnnotations (zipAnn : Option (Option JVal))
    (file : Option (Option JVal)) (saved : Option (Option JVal)) :
    JVal × LoadSource :=
  match zipAnn with
  | some z =>
      match z with
      | some v =>
          if truthy v then (v, .fromZip)
          else (loadPersistedAnnotations saved, .fromStorage)
      | none => (loadPersistedAnnotations saved, .fromStorage)
  | none =>
      match loadAnnotationsFromFile file with
      | some v => (v, .fromFile)
      | none => (loadPersistedAnnotations saved, .fromStorage)

/-! ### Positions and the geometry of placement

`calculatePosition` (lines 275-307) computes, from the target element's
bounding rectangle and the slide-display container's rectangle, a
`{left, top}` pair of CSS strings: pixel values (`left + 'px'`) for a
targeted note, `'50%'`/`'50%'` when there is no target. The embedded
`PosVal` keeps the numeric value and the unit the string would carry;
rectangle coordinates are `ℚ` (exact for every float input used here). -/

/-- A CSS position value as the code stores it: a pixel string
`"<q>px"` or a percentage string `"<q>%"`. -/
inductive PosVal where
  | px (q : ℚ)
  | pct (q : ℚ)
deriving DecidableEq, Repr

/-- A `{left, top}` position pair. -/
structure Position where
  left : PosVal
  top : PosVal
deriving DecidableEq, Repr

/-- A DOM bounding rectangle (`getBoundingClientRect` result). -/
structure Rect where
  left : ℚ
  top : ℚ
  width : ℚ
  height : ℚ
deriving DecidableEq, Repr

/-- Whether a stored position value is an integer-pixel string,
the shape claimed by the spec's position invariant. -/
def isIntPx : PosVal → Bool
  | .px q => q.den = 1
  | .pct _ => false

/-- `AnnotationManager.calculatePosition` (lines 275-307). With no target
element it returns the centred percentage pair; with one, the element's
centroid relative to the display container, clamped to at least 10px from
each container edge, as pixel values. -/
def calculatePosition (targetRect : Option Rect) (displayRect : Rect) :
    Position :=
  match targetRect with
  | none => ⟨.pct 50, .pct 50⟩
  | some rect =>
      let l := max 10 (min (displayRect.width - 10)
        (rect.left - displayRect.left + rect.width / 2))
      let t := max 10 (min (displayRect.height - 10)
        (rect.top - displayRect.top + rect.height / 2))
      ⟨.px l, .px t⟩

/-! ### Annotation records and the store operations -/

/-- An in-memory annotation/removal record, with exactly the fields the
code writes. A field holds `none` where the code stores `null` or leaves
the field unset (both compare unequal to every string under `===`, so the
two need not be distinguished for the store's own logic). -/
structure Rec where
  rtype : String
  text : Option String := none
  elementPath : Option String := none
  elementTag : Option String := none
  elementId : Option String := none
  elementAttributes : Option (List (String × String)) := none
  position : Option Position := none
  created : Option String := none
deriving Repr

/-- Data of a live target element as `createAnnotation` reads it off the
DOM: its structural path, tag, `element.id` (the empty string when the
element has no id, as in the DOM), recorded attributes, and bounding
rectangle. -/
structure TargetInfo where
  pathStr : String
  tag : String
  idStr : String
  attrs : List (String × String)
  rect : Rect
deriving Repr

/-- Everything observable from one `createAnnotation` call. -/
structure CreateOutcome where
  result : Option Rec
  records : List Rec
  editorOpened : Bool
  persisted : Bool
deriving Repr

/-- `AnnotationManager.createAnnotation` (lines 81-138).

`ensureLinks` stands for `ensureLinksOpenInNewTab`, a DOM-based rewriting
of anchor tags, passed in as the environment supplies it; it is only
invoked when the text is nonempty and contains `"<a"`, exactly as in the
code. `freshId` is the random id the code generates when the target
element has none. The guard is the code's `if (!text && targetElement)`:
empty text *with* a target opens the editor and returns `null`; in every
other case a record is built, appended to the slide's list, and
persisted. -/
def createAnnotation' (ensureLinks : String → String) (freshId : String)
    (displayRect : Rect) (text : String) (target : Option TargetInfo)
    (position : Option Position) (recs : List Rec) (now : String) :
    CreateOutcome :=
  if text = "" ∧ target.isSome then
    { result := none, records := recs, editorOpened := true,
      persisted := false }
  else
    let text1 := if text ≠ "" ∧ hasSub text "<a" then ensureLinks text
      else text
    let elId : Option String := match target with
      | some t => some (if t.idStr ≠ "" then t.idStr else freshId)
      | none => none
    let r : Rec := {
      rtype := "annotation",
      text := some text1,
      elementPath := target.map (fun t => t.pathStr),
      elementTag := target.map (fun t => t.tag),
      elementId := elId,
      elementAttributes := target.map (fun t => t.attrs),
      position := some (match position with
        | some p => p
        | none => calculatePosition (target.map (fun t => t.rect))
            displayRect),
      created := some now }
    { result := some r, records := recs ++ [r], editorOpened := false,
      persisted := true }

/-- The default save callback of `openRichTextEditor` (lines 315-340),
composed with the wrapping callback that rewrites links: the content is
link-rewritten when it contains `"<a"`, and a record is created only when
the content is nonempty and does not trim to the empty string. Returns
the slide's record list after the save. -/
def openRichTextEditorSave (ensureLinks : String → String)
    (freshId : String) (displayRect : Rect) (content : String)
    (target : Option TargetInfo) (recs : List Rec) (now : String) :
    List Rec :=
  let content1 := if content ≠ "" ∧ hasSub content "<a" then
    ensureLinks content else content
  if content1 ≠ "" ∧ jsTrim content1 ≠ "" then
    (createAnnotation' ensureLinks freshId displayRect content1 target
      none recs now).records
  else recs

/-- `updateAnnotationPosition`'s final value for one coordinate (lines
467-484): keep the element's inline style when it is a pixel string,
otherwise fall back to the integral `offsetLeft`/`offsetTop`. `style` is
`some v` when the inline style parses as a `PosVal`, `none` when it is
unset. -/
def commitCoord (style : Option PosVal) (offset : Int) : PosVal :=
  match style with
  | some (.px q) => .px q
  | _ => .px (offset : ℚ)

/-- `AnnotationManager.persistAnnotations` (lines 778-809), at the level of
the stored value: when no slide has a record the function returns without
touching the durable cache, otherwise the serialized collection replaces
the cache's previous content. (The `JSON.stringify`/`JSON.parse` pair is
shown lossless by the wire-format codec below, so the cache is modelled
as holding the collection value itself.) -/
def persistAnnotations (coll : List (String × List Rec))
    (cache : Option (List (String × List Rec))) :
    Option (List (String × List Rec)) :=
  if coll.any (fun kv => !kv.2.isEmpty) then some coll else cache

/-! ### The drag state machine (`makeElementDraggable`, lines 346-424)

One mouse interaction is `dragMouseDown`, then any number of
`elementDrag` moves, then `closeDragElement`. The machine records the
positions committed to the data model (`updateAnnotationPosition`) and
the number of persistence writes, so the commit discipline is visible in
the state. `styleLeft`/`styleTop` is the chip's inline position in pixels
(the drag handler always writes whole-pixel values, since `offsetLeft`,
`offsetTop` and mouse coordinates are integers). -/

structure DragState where
  pos1 : Int := 0
  pos2 : Int := 0
  pos3 : Int := 0
  pos4 : Int := 0
  isDragging : Bool := false
  styleLeft : Int
  styleTop : Int
  commits : List (Int × Int) := []
  persistCount : Nat := 0
deriving DecidableEq, Repr

/-- `dragMouseDown` (lines 355-372): reset the dragging flag and record
the cursor position. -/
def dragMouseDown (cx cy : Int) (st : DragState) : DragState :=
  { st with isDragging := false, pos3 := cx, pos4 := cy }

/-- `elementDrag` (lines 374-393): mark dragging, update the cursor
deltas, and move the chip on screen. No commit, no persistence. -/
def elementDrag (cx cy : Int) (st : DragState) : DragState :=
  let p1 := st.pos3 - cx
  let p2 := st.pos4 - cy
  { st with
    isDragging := true, pos1 := p1, pos2 := p2,
    pos3 := cx, pos4 := cy,
    styleTop := st.styleTop - p2, styleLeft := st.styleLeft - p1 }

/-- `closeDragElement` (lines 395-423): only when movement actually
happened, commit the final position once and persist once. -/
def closeDragElement (st : DragState) : DragState :=
  if st.isDragging then
    { st with
      commits := st.commits ++ [(st.styleLeft, st.styleTop)],
      persistCount := st.persistCount + 1 }
  else st

/-- Run a list of mouse-move events. -/
def runMoves (st : DragState) : List (Int × Int) → DragState
  | [] => st
  | (cx, cy) :: ms => runMoves (elementDrag cx cy st) ms

/-! ### The SVG document tree

An element carries its tag name, its `id` (`""` when unset, as
`element.id` reports), its attribute list in attribute order (the `id`
attribute is kept in the dedicated field and is not repeated here), and
its element children. The mutual list type gives all traversals plain
structural recursion. -/

mutual
inductive Elem where
  | mk (tag : String) (idAttr : String) (attrs : List (String × String))
      (children : ElemList)
inductive ElemList where
  | enil
  | econs (e : Elem) (tl : ElemList)
end

/-- Tag name of an element. -/
def Elem.tag : Elem → String
  | .mk t _ _ _ => t

/-- The `element.id` of an element (empty when unset). -/
def Elem.idAttr : Elem → String
  | .mk _ i _ _ => i

/-- Attribute list of an element. -/
def Elem.attrs : Elem → List (String × String)
  | .mk _ _ a _ => a

/-- Children of an element. -/
def Elem.children : Elem → ElemList
  | .mk _ _ _ c => c

/-- The children as a plain list. -/
def ElemList.toList : ElemList → List Elem
  | .enil => []
  | .econs e tl => e :: tl.toList

mutual
/-- The element and all its descendants, in document (pre-)order. -/
def Elem.preorder : Elem → List Elem
  | .mk t i a c => .mk t i a c :: ElemList.preorderAll c
/-- All elements of a forest with their descendants, in document order. -/
def ElemList.preorderAll : ElemList → List Elem
  | .enil => []
  | .econs e tl => e.preorder ++ tl.preorderAll
end

/-- `getAttribute` on the model: the dedicated id field answers for
`"id"`; every other name is looked up in the attribute list. -/
def getAttr (e : Elem) (name : String) : Option String :=
  if name = "id" then (if e.idAttr ≠ "" then some e.idAttr else none)
  else (e.attrs.find? (fun kv => kv.1 = name)).map (fun kv => kv.2)

/-- `svgElement.getElementById(i)`: the first element in document order
whose id is `i`; the empty string never matches (per the DOM contract). -/
def getElementById (root : Elem) (i : String) : Option Elem :=
  if i = "" then none
  else (root.preorder).find? (fun e => e.idAttr = i)

/-- `root.querySelectorAll(tag)`: the descendants (excluding the root
itself) with the given tag name, in document order. -/
def querySelectorAllTag (root : Elem) (tag : String) : List Elem :=
  (ElemList.preorderAll root.children).filter (fun e => e.tag = tag)

/-! ### Structural paths (`getElementPath` / `findElementByPath`)

A stored path is a string `"/tag[idx]/tag[idx]..."`. `findElementByPath`
(lines 730-773) splits it on `/`, matches each nonempty part against the
regular expression `([^\[]+)\[(\d+)\]` (skipping parts that do not
match), and walks the tree: at each step the children with the recorded
tag are collected and the recorded sibling index selects one; too few
matching children means the walk returns `null` — directly, not into the
attribute fallback, because `return null` leaves the whole function. The
attribute fallback in the second `try` block is reachable only when the
first block throws, which a string path never does: it needs a non-string
path (`path.split` throws) — modelled as the `none` path — and its own
`catch` returns `null` when `attributes` is `null`
(`Object.entries(null)` throws). -/

/-- One anchored attempt of the part regex `([^\[]+)\[(\d+)\]`: a maximal
nonempty run of non-`[` characters, a literal `[`, a nonempty digit run,
and `]`. -/
def tryAnchor (cs : List Char) : Option (String × Nat) :=
  match cs.span (fun c => c ≠ '[') with
  | (run, rest) =>
    if run.isEmpty then none
    else match rest with
      | '[' :: r2 =>
          match r2.span (fun c => isDig c) with
          | (ds, r3) =>
            if ds.isEmpty then none
            else match r3 with
              | ']' :: _ => some (⟨run⟩, digitsVal ds)
              | _ => none
      | _ => none

/-- Leftmost match of the part regex, as `String.prototype.match` finds
it: try each start position from the left. -/
def firstMatch : List Char → Option (String × Nat)
  | [] => none
  | c :: cs =>
      match tryAnchor (c :: cs) with
      | some r => some r
      | none => firstMatch cs

/-- `path.split('/')`, dropping empty parts and parts the regex does not
match (the code `continue`s over those). -/
def parsePathParts (p : String) : List (String × Nat) :=
  ((splitOnChar '/' p.data).filter (fun s => ¬ s.isEmpty)).filterMap
    (fun part => firstMatch part)

/-- The children of `cur` whose tag is `tag`
(`Array.from(current.children).filter(...)`). -/
def childrenByTag (cur : Elem) (tag : String) : List Elem :=
  cur.children.toList.filter (fun c => c.tag = tag)

/-- The path walk of `findElementByPath`'s first `try` block: follow each
`(tag, index)` step; a step whose matching children do not reach the
index returns `null` for the whole resolution. -/
def pathWalk : Elem → List (String × Nat) → Option Elem
  | cur, [] => some cur
  | cur, (tag, idx) :: rest =>
      let cs := childrenByTag cur tag
      if h : idx < cs.length then pathWalk (cs.get ⟨idx, h⟩) rest
      else none

/-- The predicate of claim C5: at some step of the walk, the count of
children matching the recorded tag is not greater than the recorded
sibling index. -/
def outOfRange : Elem → List (String × Nat) → Bool
  | _, [] => false
  | cur, (tag, idx) :: rest =>
      let cs := childrenByTag cur tag
      if h : idx < cs.length then outOfRange (cs.get ⟨idx, h⟩) rest
      else true

/-- The attribute fallback of `findElementByPath`'s second `try` block:
the first descendant with the recorded tag whose value for every recorded
attribute equals the recorded value (`candidates.find(...)`; no match
gives `undefined`, i.e. `none`). -/
def attrFallback (root : Elem) (tag : String)
    (attrs : List (String × String)) : Option Elem :=
  (querySelectorAllTag root tag).find?
    (fun e => attrs.all (fun kv => getAttr e kv.1 = some kv.2))

/-- `AnnotationManager.findElementByPath` (lines 730-773). A string path
runs the walk and returns its outcome unconditionally; the fallback is
reached only on the throwing path (`path` not a string), and inside it a
`null` attribute record throws into the final `catch`, giving `null`. -/
def findElementByPath (svgRoot : Elem) (path : Option String)
    (tagName : String) (attributes : Option (List (String × String))) :
    Option Elem :=
  match path with
  | some p => pathWalk svgRoot (parsePathParts p)
  | none =>
      match attributes with
      | some attrs => attrFallback svgRoot tagName attrs
      | none => none

/-- Resolution of a note record's target in `applyAnnotationsForSlide`
(lines 577-594): `getElementById` first when the record carries a truthy
id, and the path-based resolution only when that produced nothing and the
record carries a truthy path. -/
def resolveNoteTarget (svg : Elem) (elementId : Option String)
    (elementPath : Option String) (elementTag : String)
    (elementAttributes : Option (List (String × String))) : Option Elem :=
  let byId : Option Elem := match elementId with
    | some i => if i ≠ "" then getElementById svg i else none
    | none => none
  match byId with
  | some e => some e
  | none =>
      match elementPath with
      | some p =>
          if p ≠ "" then findElementByPath svg (some p) elementTag
            elementAttributes
          else none
      | none => none

/-! ### Removal records (`saveRemovedElements`, lines 945-993) -/

/-- The allow-listed attribute names of `getElementAttributes`
(lines 706-720). -/
def importantAttributes : List String :=
  ["class", "width", "height", "x", "y", "d", "points", "cx", "cy", "r",
   "rx", "ry"]

/-- `getElementAttributes`: the element's attributes restricted to the
allow list, in attribute order. -/
def getElementAttributes (e : Elem) : List (String × String) :=
  e.attrs.filter (fun kv => importantAttributes.contains kv.1)

/-- `element.classList.contains('removed')`: the `class` attribute,
split on spaces, contains the token. -/
def hasRemovedClass (e : Elem) : Bool :=
  match getAttr e "class" with
  | some v => (splitOnChar ' ' v.data).contains "removed".data
  | none => false

/-- The data `saveRemovedElements` reads off one removed element: its
tag, `element.id`, structural path (`getElementPath`) and allow-listed
attributes. -/
structure RemovedDescr where
  tag : String
  idStr : String
  path : String
  attrs : List (String × String)
deriving Repr

/-- The removed elements of a forest in document order, with their
descriptors; `prev` holds the previous siblings at this level (for the
same-tag sibling index of `getElementPath`, lines 675-699) and `acc` the
path accumulated from the root. This is `querySelectorAll('.removed')`
combined with the per-element reads of lines 959-962. -/
def collectRemoved (prev : List Elem) (acc : String) :
    ElemList → List RemovedDescr
  | .enil => []
  | .econs (.mk t i a c) tl =>
      let e : Elem := .mk t i a c
      let idx := (prev.filter (fun s => s.tag = t)).length
      let myPath := acc ++ "/" ++ t ++ "[" ++ toString idx ++ "]"
      (if hasRemovedClass e then
        [{ tag := t, idStr := i, path := myPath,
           attrs := getElementAttributes e }]
       else [])
      ++ collectRemoved [] myPath c
      ++ collectRemoved (prev ++ [e]) acc tl

/-- The duplicate test of lines 964-968: an existing Removal record with
the same (truthy) id or the same (truthy) path. -/
def alreadySaved (recs : List Rec) (d : RemovedDescr) : Bool :=
  recs.any (fun a =>
    a.rtype = "removed" ∧
    ((d.idStr ≠ "" ∧ a.elementId = some d.idStr) ∨
     (d.path ≠ "" ∧ a.elementPath = some d.path)))

/-- The Removal record built for a novel removed element
(lines 973-984): `elementId` is only set when truthy. -/
def removalRec (d : RemovedDescr) : Rec :=
  { rtype := "removed", elementTag := some d.tag,
    elementPath := some d.path, elementAttributes := some d.attrs,
    elementId := if d.idStr ≠ "" then some d.idStr else none }

/-- Process one removed element (the `forEach` body, lines 959-989). -/
def saveRemovedStep (recs : List Rec) (d : RemovedDescr) : List Rec :=
  if alreadySaved recs d then recs else recs ++ [removalRec d]

/-- `AnnotationManager.saveRemovedElements` on one slide's record list:
fold the removed elements of the document over the duplicate-suppressing
append. -/
def saveRemovedElements (svg : Elem) (recs : List Rec) : List Rec :=
  (collectRemoved [] "" svg.children).foldl saveRemovedStep recs

/-! ### The platform JSON codec

`persistAnnotations` writes `JSON.stringify(this.annotations, null, 2)`
and `loadPersistedAnnotations` reads it back with `JSON.parse`. Both are
embedded executably: `printV` is the pretty printer with a two-space
indent, exactly in the ECMA-262 format (`"key": value` members, one
element per line, `{}`/`[]` for empty containers, control characters and
`"`/`\` escaped); `parseV` is a fuel-indexed recursive-descent parser for
the same grammar fragment. -/

/-- A newline followed by the indentation of nesting depth `n`. -/
def nlInd (n : Nat) : List Char := '\n' :: List.replicate (2 * n) ' '

/-- Lowercase hex digit, for `\u00XX` escapes. -/
def hexDig (n : Nat) : Char :=
  if n < 10 then Char.ofNat ('0'.toNat + n)
  else Char.ofNat ('a'.toNat + n - 10)

/-- `JSON.stringify`'s escaping of one character: `"` and `\` get a
backslash, the named control characters their short escapes, the other
control characters a `\u00XX` escape, everything else is literal. -/
def escChar (c : Char) : List Char :=
  if c = '"' then ['\\', '"']
  else if c = '\\' then ['\\', '\\']
  else if c = '\n' then ['\\', 'n']
  else if c = '\r' then ['\\', 'r']
  else if c = '\t' then ['\\', 't']
  else if c = Char.ofNat 8 then ['\\', 'b']
  else if c = Char.ofNat 12 then ['\\', 'f']
  else if c.toNat < 32 then
    ['\\', 'u', '0', '0', hexDig (c.toNat / 16), hexDig (c.toNat % 16)]
  else [c]

/-- Escape a character run. -/
def escBody : List Char → List Char
  | [] => []
  | c :: cs => escChar c ++ escBody cs

/-- A quoted, escaped JSON string literal. -/
def printStr (s : String) : List Char := '"' :: (escBody s.data ++ ['"'])

mutual
/-- `JSON.stringify(v, null, 2)` at nesting depth `d`, as characters. -/
def printV (d : Nat) : JVal → List Char
  | .jnull => ['n', 'u', 'l', 'l']
  | .jstr s => printStr s
  | .jarr [] => ['[', ']']
  | .jarr (e :: es) =>
      '[' :: (nlInd (d + 1) ++ printV (d + 1) e ++ printArrSep (d + 1) es
        ++ nlInd d ++ [']'])
  | .jobj [] => [lbrace, rbrace]
  | .jobj (m :: ms) =>
      lbrace :: (nlInd (d + 1) ++ printMember (d + 1) m
        ++ printObjSep (d + 1) ms ++ nlInd d ++ [rbrace])
/-- The `",\n<indent>element"` tail of a nonempty array. -/
def printArrSep (d : Nat) : List JVal → List Char
  | [] => []
  | e :: es => ',' :: (nlInd d ++ printV d e ++ printArrSep d es)
/-- One `"key": value` member. -/
def printMember (d : Nat) : String × JVal → List Char
  | (k, v) => printStr k ++ ':' :: ' ' :: printV d v
/-- The `",\n<indent>member"` tail of a nonempty object. -/
def printObjSep (d : Nat) : List (String × JVal) → List Char
  | [] => []
  | m :: ms => ',' :: (nlInd d ++ printMember d m ++ printObjSep d ms)
end

mutual
/-- Node count of a JSON value, a fuel bound for the parser. -/
def jsizeV : JVal → Nat
  | .jnull => 1
  | .jstr _ => 1
  | .jarr es => 1 + jsizeItems es
  | .jobj ms => 1 + jsizeMembers ms
/-- Node count of an array's elements. -/
def jsizeItems : List JVal → Nat
  | [] => 1
  | e :: es => 1 + jsizeV e + jsizeItems es
/-- Node count of an object's members. -/
def jsizeMembers : List (String × JVal) → Nat
  | [] => 1
  | (_, v) :: ms => 1 + jsizeV v + jsizeMembers ms
end

/-- Skip JSON insignificant whitespace. -/
def skipWs : List Char → List Char
  | [] => []
  | c :: cs => if isJsonWs c then skipWs cs else c :: cs

/-- Value of one hex digit, as `JSON.parse` accepts it. -/
def hexVal (c : Char) : Option Nat :=
  if '0' ≤ c ∧ c ≤ '9' then some (c.toNat - '0'.toNat)
  else if 'a' ≤ c ∧ c ≤ 'f' then some (c.toNat - 'a'.toNat + 10)
  else if 'A' ≤ c ∧ c ≤ 'F' then some (c.toNat - 'A'.toNat + 10)
  else none

/-- The single-character escapes `JSON.parse` accepts. -/
def unescapeChar (c : Char) : Option Char :=
  if c = '"' then some '"'
  else if c = '\\' then some '\\'
  else if c = '/' then some '/'
  else if c = 'n' then some '\n'
  else if c = 'r' then some '\r'
  else if c = 't' then some '\t'
  else if c = 'b' then some (Char.ofNat 8)
  else if c = 'f' then some (Char.ofNat 12)
  else none

/-- Parse a string body after the opening quote, returning the decoded
characters and the input after the closing quote. -/
def parseStrBody : List Char → Option (List Char × List Char)
  | [] => none
  | c :: r =>
      if c = '"' then some ([], r)
      else if c = '\\' then
        match r with
        | [] => none
        | e :: r2 =>
            if e = 'u' then
              match r2 with
              | a :: b :: c3 :: d :: r3 =>
                  match hexVal a, hexVal b, hexVal c3, hexVal d with
                  | some va, some vb, some vc, some vd =>
                      (parseStrBody r3).map (fun pr =>
                        (Char.ofNat (((va * 16 + vb) * 16 + vc) * 16 + vd)
                          :: pr.1, pr.2))
                  | _, _, _, _ => none
              | _ => none
            else
              match unescapeChar e with
              | some ch => (parseStrBody r2).map (fun pr =>
                  (ch :: pr.1, pr.2))
              | none => none
      else (parseStrBody r).map (fun pr => (c :: pr.1, pr.2))

mutual
/-- Parse one JSON value (null / string / array / object). -/
def parseV : Nat → List Char → Option (JVal × List Char)
  | 0, _ => none
  | fuel + 1, cs =>
      match skipWs cs with
      | [] => none
      | c :: r =>
          if c = 'n' then
            match r with
            | 'u' :: 'l' :: 'l' :: r2 => some (.jnull, r2)
            | _ => none
          else if c = '"' then
            (parseStrBody r).map (fun pr => (.jstr ⟨pr.1⟩, pr.2))
          else if c = '[' then
            match skipWs r with
            | [] => none
            | c2 :: r2 =>
                if c2 = ']' then some (.jarr [], r2)
                else
                  match parseItems fuel (c2 :: r2) with
                  | some (es, r3) => some (.jarr es, r3)
                  | none => none
          else if c = lbrace then
            match skipWs r with
            | [] => none
            | c2 :: r2 =>
                if c2 = rbrace then some (.jobj [], r2)
                else
                  match parseMembers fuel (c2 :: r2) with
                  | some (ms, r3) => some (.jobj ms, r3)
                  | none => none
          else none
/-- Parse the elements of a nonempty array, up to and including `]`. -/
def parseItems : Nat → List Char → Option (List JVal × List Char)
  | 0, _ => none
  | fuel + 1, cs =>
      match parseV fuel cs with
      | none => none
      | some (v, r) =>
          match skipWs r with
          | ',' :: r2 =>
              match parseItems fuel r2 with
              | some (vs, r3) => some (v :: vs, r3)
              | none => none
          | c2 :: r2 => if c2 = ']' then some ([v], r2) else none
          | [] => none
/-- Parse the members of a nonempty object, up to and including the
closing brace. -/
def parseMembers : Nat → List Char →
    Option (List (String × JVal) × List Char)
  | 0, _ => none
  | fuel + 1, cs =>
      match skipWs cs with
      | '"' :: r =>
          match parseStrBody r with
          | none => none
          | some (k, r1) =>
              match skipWs r1 with
              | ':' :: r2 =>
                  match parseV fuel r2 with
                  | none => none
                  | some (v, r3) =>
                      match skipWs r3 with
                      | ',' :: r4 =>
                          match parseMembers fuel r4 with
                          | some (ms, r5) => some ((⟨k⟩, v) :: ms, r5)
                          | none => none
                      | c4 :: r4 =>
                          if c4 = rbrace then some ([(⟨k⟩, v)], r4)
                          else none
                      | [] => none
              | _ => none
      | _ => none
end

/-- `JSON.parse`: parse one value and require only whitespace after it. -/
def parseJson (cs : List Char) : Option JVal :=
  match parseV (cs.length + 1) cs with
  | some (v, r) => if (skipWs r).isEmpty then some v else none
  | none => none

/-! ### The annotation wire format (§6 of the spec)

A persisted collection maps `"slide-<N>"` keys to arrays of records.
`WireRec` captures the two record shapes the code writes, field for
field and in the field order of the object literals in
`createAnnotation` (lines 94-103) and `saveRemovedElements` (lines
974-984; `elementId` appended last, only when truthy). -/

inductive WireRec where
  | note (text : String) (elementPath : Option String)
      (elementTag : Option String) (elementId : Option String)
      (elementAttributes : Option (List (String × String)))
      (posLeft posTop : String) (created : String)
  | removal (elementTag : String) (elementPath : String)
      (elementAttributes : List (String × String))
      (elementId : Option String)
deriving DecidableEq, Repr

/-- A nullable string field as JSON. -/
def optStrJson : Option String → JVal
  | some s => .jstr s
  | none => .jnull

/-- An attribute map as a JSON object. -/
def attrsJson (l : List (String × String)) : JVal :=
  .jobj (l.map (fun kv => (kv.1, .jstr kv.2)))

/-- The JSON object the code builds for one record. -/
def recToJson : WireRec → JVal
  | .note text p tg i a pl pt cr =>
      .jobj [("type", .jstr "annotation"), ("text", .jstr text),
        ("elementPath", optStrJson p), ("elementTag", optStrJson tg),
        ("elementId", optStrJson i),
        ("elementAttributes",
          match a with | some l => attrsJson l | none => .jnull),
        ("position", .jobj [("left", .jstr pl), ("top", .jstr pt)]),
        ("created", .jstr cr)]
  | .removal tg p a i =>
      .jobj ([("type", .jstr "removed"), ("elementTag", .jstr tg),
        ("elementPath", .jstr p), ("elementAttributes", attrsJson a)] ++
        (match i with
          | some s => [("elementId", .jstr s)]
          | none => []))

/-- The JSON object for a whole collection, keys in insertion order. -/
def collToJson (C : List (String × List WireRec)) : JVal :=
  .jobj (C.map (fun kv => (kv.1, .jarr (kv.2.map recToJson))))

/-- `JSON.stringify(collection, null, 2)`: the exact string
`persistAnnotations` writes to the durable cache. -/
def serializeColl (C : List (String × List WireRec)) : List Char :=
  printV 0 (collToJson C)

/-- The deserialization step of `loadPersistedAnnotations`: parse the
cached string and accept the result only when it is a truthy object
(`parsed && typeof parsed === 'object'`). -/
def deserializeCache (cs : List Char) : Option JVal :=
  match parseJson cs with
  | some v => if truthy v && typeofObject v then some v else none
  | none => none

/-- Read a nullable string field back. -/
def asOptStr : JVal → Option (Option String)
  | .jnull => some none
  | .jstr s => some (some s)
  | _ => none

/-- Read an attribute object's members back. -/
def readAttrs : List (String × JVal) → Option (List (String × String))
  | [] => some []
  | (k, .jstr v) :: rest => (readAttrs rest).map (fun l => (k, v) :: l)
  | _ => none

/-- Read an attribute map field back. -/
def asAttrs : JVal → Option (List (String × String))
  | .jobj ms => readAttrs ms
  | _ => none

/-- Read a nullable attribute map field back. -/
def asOptAttrs : JVal → Option (Option (List (String × String)))
  | .jnull => some none
  | .jobj ms => (readAttrs ms).map some
  | _ => none

/-- Read the next field of an object, requiring the expected name. -/
def readField (name : String) : List (String × JVal) →
    Option (JVal × List (String × JVal))
  | (k, v) :: rest => if k = name then some (v, rest) else none
  | [] => none

/-- Read a string-valued JSON value. -/
def readStrField : JVal → Option String
  | .jstr s => some s
  | _ => none

/-- Read a `{left, top}` position object back. -/
def readPosition : JVal → Option (String × String)
  | .jobj fs => do
      let (lj, fs1) ← readField "left" fs
      let l ← readStrField lj
      let (tj, fs2) ← readField "top" fs1
      let t ← readStrField tj
      if fs2.isEmpty then some (l, t) else none
  | _ => none

/-- Read a note record's fields, in the exact order `createAnnotation`
writes them. -/
def readNoteFields (fs : List (String × JVal)) : Option WireRec := do
  let (tj, fs1) ← readField "text" fs
  let tx ← readStrField tj
  let (pj, fs2) ← readField "elementPath" fs1
  let p ← asOptStr pj
  let (tgj, fs3) ← readField "elementTag" fs2
  let tg ← asOptStr tgj
  let (idj, fs4) ← readField "elementId" fs3
  let i ← asOptStr idj
  let (aj, fs5) ← readField "elementAttributes" fs4
  let a ← asOptAttrs aj
  let (posj, fs6) ← readField "position" fs5
  let (pl, pt) ← readPosition posj
  let (crj, fs7) ← readField "created" fs6
  let cr ← readStrField crj
  if fs7.isEmpty then some (.note tx p tg i a pl pt cr) else none

/-- Read a removal record's fields, in the exact order
`saveRemovedElements` writes them (`elementId` last, optional). -/
def readRemovalFields (fs : List (String × JVal)) : Option WireRec := do
  let (tgj, fs1) ← readField "elementTag" fs
  let tg ← readStrField tgj
  let (pj, fs2) ← readField "elementPath" fs1
  let p ← readStrField pj
  let (aj, fs3) ← readField "elementAttributes" fs2
  let a ← asAttrs aj
  match fs3 with
  | [] => some (.removal tg p a none)
  | [("elementId", .jstr i)] => some (.removal tg p a (some i))
  | _ => none

/-- Read one record object back into its structured form. -/
def readRec : JVal → Option WireRec
  | .jobj (("type", .jstr ty) :: rest) =>
      if ty = "annotation" then readNoteFields rest
      else if ty = "removed" then readRemovalFields rest
      else none
  | _ => none

/-- Read a record array back. -/
def readRecs : List JVal → Option (List WireRec)
  | [] => some []
  | v :: vs =>
      match readRec v, readRecs vs with
      | some r, some rs => some (r :: rs)
      | _, _ => none

/-- Read a collection object's fields back. -/
def readCollFields : List (String × JVal) →
    Option (List (String × List WireRec))
  | [] => some []
  | (k, .jarr items) :: rest =>
      match readRecs items, readCollFields rest with
      | some rs, some tl => some ((k, rs) :: tl)
      | _, _ => none
  | _ => none

/-- Read a collection value back into its structured form. -/
def readColl : JVal → Option (List (String × List WireRec))
  | .jobj fields => readCollFields fields
  | _ => none

/-- The attributes carried by a record (empty when the field is null). -/
def attrsOfRec : WireRec → List (String × String)
  | .note _ _ _ _ (some a) _ _ _ => a
  | .note _ _ _ _ none _ _ _ => []
  | .removal _ _ a _ => a

/-- Well-formedness matching JavaScript object semantics: the slide keys
of a collection are distinct, as are the attribute names inside each
record (a JS object cannot hold duplicate keys). -/
def wfColl (C : List (String × List WireRec)) : Prop :=
  (C.map Prod.fst).Nodup ∧
  ∀ kv ∈ C, ∀ r ∈ kv.2, ((attrsOfRec r).map Prod.fst).Nodup

/-! ### Concrete fixtures used by witnesses and counterexamples -/

/-- A `<rect x="10" y="20">` with no id. -/
def rectXY : Elem := .mk "rect" "" [("x", "10"), ("y", "20")] .enil

/-- A `<circle id="b">`. -/
def circB : Elem := .mk "circle" "b" [] .enil

/-- A `<g>` wrapper holding the rect and the circle. -/
def gWrap : Elem := .mk "g" "" [] (.econs rectXY (.econs circB .enil))

/-- A small document: `<svg><g><rect x="10" y="20"/><circle id="b"/></g></svg>`. -/
def svgDoc : Elem := .mk "svg" "" [] (.econs gWrap .enil)

/-- A document with a single removed rect
(`<svg><rect class="shape removed" x="1"/></svg>`). -/
def svgRemoved : Elem :=
  .mk "svg" "" []
    (.econs (.mk "rect" "" [("class", "shape removed"), ("x", "1")] .enil)
      .enil)

/-- A slide-display rectangle of 800 by 600 at the origin. -/
def dispRect : Rect := ⟨0, 0, 800, 600⟩

/-- A target bounding rectangle whose horizontal centre is fractional. -/
def fracRect : Rect := ⟨201/2, 100, 0, 0⟩

/-- A target element sitting at `fracRect`. -/
def tgtFrac : TargetInfo :=
  { pathStr := "/rect[0]", tag := "rect", idStr := "r1", attrs := [],
    rect := fracRect }

/-- A drag-machine start state: chip at 5px from each edge, nothing
committed. -/
def st0 : DragState := { styleLeft := 5, styleTop := 5 }

/-- A one-note, one-removal sample collection in the wire format. -/
def sampleColl : List (String × List WireRec) :=
  [("slide-1",
    [.note "Hello" (some "/g[0]/rect[0]") (some "rect") (some "shape-1")
      (some [("x", "10")]) "100px" "200px" "2024-01-01T00:00:00.000Z",
     .removal "circle" "/g[0]/circle[0]" [("class", "x removed")] none]),
   ("slide-2", [])]

end SlideViewer

/-!
## Theorems

Supporting lemmas first, then one theorem per claim (with witnesses and
counterexamples where required).
-/

namespace SlideViewer

/-! ### Path-walk lemmas (claims C1, C5) -/

/-- When some step of the walk is out of range, the walk itself returns
`none`. -/
theorem outOfRange_pathWalk : ∀ (parts : List (String × Nat)) (cur : Elem),
    outOfRange cur parts = true → pathWalk cur parts = none
  | [], _, h => by simp [outOfRange] at h
  | (tag, idx) :: rest, cur, h => by
      simp only [outOfRange] at h
      simp only [pathWalk]
      by_cases hlt : idx < (childrenByTag cur tag).length
      · rw [dif_pos hlt] at h ⊢
        exact outOfRange_pathWalk rest _ h
      · rw [dif_neg hlt]

/-! ### Drag-machine lemmas (claim C7) -/

/-- Mouse moves never touch the committed positions or the persistence
counter. -/
theorem runMoves_commits : ∀ (ms : List (Int × Int)) (st : DragState),
    (runMoves st ms).commits = st.commits ∧
    (runMoves st ms).persistCount = st.persistCount
  | [], _ => ⟨rfl, rfl⟩
  | (cx, cy) :: ms, st => runMoves_commits ms (elementDrag cx cy st)

/-- Mouse moves never clear the dragging flag. -/
theorem runMoves_dragging_mono : ∀ (ms : List (Int × Int)) (st : DragState),
    st.isDragging = true → (runMoves st ms).isDragging = true
  | [], _, h => h
  | (cx, cy) :: ms, st, _ => runMoves_dragging_mono ms (elementDrag cx cy st) rfl

/-- At least one mouse move sets the dragging flag. -/
theorem runMoves_dragging (ms : List (Int × Int)) (st : DragState)
    (h : ms ≠ []) : (runMoves st ms).isDragging = true := by
  match ms, h with
  | (cx, cy) :: ms, _ => exact runMoves_dragging_mono ms (elementDrag cx cy st) rfl

/-! ### Whitespace-only content lemmas (claim C9) -/

/-- A whitespace-only string does not contain the substring `"<a"`. -/
theorem allWs_not_hasSub (s : String) (h : s.data.all (fun c => isJsWs c) = true) :
    hasSub s "<a" = false := by
  by_contra hcon
  rw [Bool.not_eq_false, hasSub, decide_eq_true_eq] at hcon
  have hmem : '<' ∈ s.data := hcon.subset (by decide)
  rw [List.all_eq_true] at h
  have := h '<' hmem
  simp [isJsWs] at this

/-- A whitespace-only string trims to the empty string. -/
theorem allWs_trim (s : String) (h : s.data.all (fun c => isJsWs c) = true) :
    jsTrim s = "" := by
  rw [List.all_eq_true] at h
  have hdrop : s.data.dropWhile (fun c => isJsWs c) = [] :=
    List.dropWhile_eq_nil_iff.mpr h
  simp [jsTrim, hdrop]

/-- Claim C2: with a bundle supplied but carrying no annotation payload,
startup loads from the durable cache and never consults the local default
file (the choice is independent of the file source); without a bundle,
a well-formed local default file is used, and the cache only when the
file source fails. -/
theorem c2_load_priority :
    (∀ (file saved : Option (Option JVal)),
      initialAnnotations (some none) file saved =
        (loadPersistedAnnotations saved, LoadSource.fromStorage)) ∧
    (∀ (v : JVal) (saved : Option (Option JVal)),
      (truthy v && typeofObject v) = true →
      initialAnnotations none (some (some v)) saved = (v, .fromFile)) ∧
    (∀ (file saved : Option (Option JVal)),
      loadAnnotationsFromFile file = none →
      initialAnnotations none file saved =
        (loadPersistedAnnotations saved, .fromStorage)) := by
  refine ⟨fun file saved => rfl, fun v saved h => ?_, fun file saved h => ?_⟩
  · simp [initialAnnotations, loadAnnotationsFromFile, h]
  · simp [initialAnnotations, h]

/-- Witness for C2: a bundle with empty payload and a nonempty cache use
the cache; with no bundle a parsed local file is used. -/
theorem c2_witness :
    initialAnnotations (some none) (some (some (.jobj [("slide-9", .jarr [])])))
      (some (some (.jobj [("slide-1", .jarr [])]))) =
      (.jobj [("slide-1", .jarr [])], .fromStorage) ∧
    initialAnnotations none (some (some (.jobj [("slide-2", .jarr [])]))) none =
      (.jobj [("slide-2", .jarr [])], .fromFile) := by
  constructor
  · rw [c2_load_priority.1 (some (some (.jobj [("slide-9", .jarr [])])))
      (some (some (.jobj [("slide-1", .jarr [])])))]
    rfl
  · exact c2_load_priority.2.1 _ _ (by rfl)

/-- Claim C4: a record with a truthy id that `getElementById` resolves is
bound to that element; the structural path is never consulted (the result
is the same for every path). -/
theorem c4_id_authoritative (svg : Elem) (i : String) (e : Elem)
    (path : Option String) (tag : String)
    (attrs : Option (List (String × String)))
    (h : getElementById svg i = some e) :
    resolveNoteTarget svg (some i) path tag attrs = some e := by
  have hi : ¬ i = "" := by
    intro hempty
    rw [hempty] at h
    simp [getElementById] at h
  simp [resolveNoteTarget, hi, h]

/-- Witness for C4: in `svgDoc` the id `"b"` resolves to the circle while
the recorded path resolves to the rect; resolution returns the circle. -/
theorem c4_witness :
    getElementById svgDoc "b" = some circB ∧
    pathWalk svgDoc (parsePathParts "/g[0]/rect[0]") = some rectXY ∧
    resolveNoteTarget svgDoc (some "b") (some "/g[0]/rect[0]") "rect" none =
      some circB :=
  ⟨by rfl, by rfl,
   c4_id_authoritative svgDoc "b" circB (some "/g[0]/rect[0]") "rect" none
     (by rfl)⟩

/-- Claim C5: resolution with an out-of-range structural path returns
`null` (and, the embedding being total, never raises); a malformed
descriptor with no path and no attribute record also returns `null`. -/
theorem c5_soft_fail :
    (∀ (root : Elem) (p tag : String)
        (attrs : Option (List (String × String))),
      outOfRange root (parsePathParts p) = true →
      findElementByPath root (some p) tag attrs = none) ∧
    (∀ (root : Elem) (tag : String),
      findElementByPath root none tag none = none) := by
  refine ⟨fun root p tag attrs h => ?_, fun root tag => rfl⟩
  simp only [findElementByPath]
  exact outOfRange_pathWalk _ _ h

/-- Witness for C5: `/g[0]/rect[5]` is out of range in `svgDoc` (one
matching child) and resolution returns `none`. -/
theorem c5_witness :
    outOfRange svgDoc (parsePathParts "/g[0]/rect[5]") = true ∧
    findElementByPath svgDoc (some "/g[0]/rect[5]") "rect"
      (some [("x", "10"), ("y", "20")]) = none :=
  ⟨by rfl, c5_soft_fail.1 svgDoc "/g[0]/rect[5]" "rect"
    (some [("x", "10"), ("y", "20")]) (by rfl)⟩

/-- Counterexample to claim C1: in `svgDoc` a descriptor with a null id,
an out-of-range structural path, tag `rect` and attributes
`x="10", y="20"` resolves to `none`, even though the attribute fallback
alone would find the matching `<rect>` elsewhere in the document — the
out-of-range walk returns `null` without consulting the fallback. -/
theorem c1_counterexample :
    findElementByPath svgDoc (some "/g[0]/rect[5]") "rect"
      (some [("x", "10"), ("y", "20")]) = none ∧
    attrFallback svgDoc "rect" [("x", "10"), ("y", "20")] = some rectXY :=
  ⟨by rfl, by rfl⟩

/-- Claim C1 as amended: the attribute fallback — first descendant with
the recorded tag whose allow-listed attributes all match — applies only
when the walk throws (path absent); whenever the structural path walk
fails, including the out-of-range case, resolution returns `none` without
consulting the fallback. -/
theorem c1_fallback_only_without_path :
    (∀ (root : Elem) (tag : String) (attrs : List (String × String)),
      findElementByPath root none tag (some attrs) =
        attrFallback root tag attrs) ∧
    (∀ (root : Elem) (p tag : String)
        (attrs : Option (List (String × String))),
      pathWalk root (parsePathParts p) = none →
      findElementByPath root (some p) tag attrs = none) := by
  refine ⟨fun root tag attrs => rfl, fun root p tag attrs h => ?_⟩
  simpa [findElementByPath] using h

/-- Witness for C1 (amended): with the path absent the fallback finds the
rect by its attributes; with the out-of-range path resolution is `none`. -/
theorem c1_witness :
    findElementByPath svgDoc none "rect" (some [("x", "10"), ("y", "20")]) =
      attrFallback svgDoc "rect" [("x", "10"), ("y", "20")] ∧
    findElementByPath svgDoc (some "/g[0]/rect[5]") "rect"
      (some [("x", "10"), ("y", "20")]) = none :=
  ⟨c1_fallback_only_without_path.1 svgDoc "rect" [("x", "10"), ("y", "20")],
   c1_fallback_only_without_path.2 svgDoc "/g[0]/rect[5]" "rect"
     (some [("x", "10"), ("y", "20")]) (by rfl)⟩

/-- Claim C10: when every slide key holds an empty record list,
`persistAnnotations` leaves the durable cache untouched. -/
theorem c10_no_empty_write (coll : List (String × List Rec))
    (cache : Option (List (String × List Rec)))
    (h : ∀ kv ∈ coll, kv.2 = []) :
    persistAnnotations coll cache = cache := by
  have hany : coll.any (fun kv => !kv.2.isEmpty) = false := by
    rw [List.any_eq_false]
    intro kv hkv
    simp [h kv hkv]
  simp [persistAnnotations, hany]

/-- Witness for C10: persisting an all-empty collection keeps the
previous cache value. -/
theorem c10_witness :
    persistAnnotations [("slide-1", [])]
      (some [("slide-1", [{ rtype := "annotation" }])]) =
      some [("slide-1", [{ rtype := "annotation" }])] :=
  c10_no_empty_write [("slide-1", [])]
    (some [("slide-1", [{ rtype := "annotation" }])])
    (by intro kv hkv; rw [List.mem_singleton] at hkv; rw [hkv])

/-- Claim C7: over a full drag interaction, no intermediate mouse move
commits a position or persists; a release after at least one move commits
exactly the final coordinates once and persists once; a press-and-release
with no movement changes nothing. -/
theorem c7_drag_commit (st : DragState) (cx cy : Int)
    (moves : List (Int × Int)) :
    ((runMoves (dragMouseDown cx cy st) moves).commits = st.commits ∧
     (runMoves (dragMouseDown cx cy st) moves).persistCount =
       st.persistCount) ∧
    (moves ≠ [] →
      (closeDragElement (runMoves (dragMouseDown cx cy st) moves)).commits =
        st.commits ++
          [((runMoves (dragMouseDown cx cy st) moves).styleLeft,
            (runMoves (dragMouseDown cx cy st) moves).styleTop)] ∧
      (closeDragElement
          (runMoves (dragMouseDown cx cy st) moves)).persistCount =
        st.persistCount + 1) ∧
    (moves = [] →
      closeDragElement (runMoves (dragMouseDown cx cy st) moves) =
        dragMouseDown cx cy st) := by
  have hkeep := runMoves_commits moves (dragMouseDown cx cy st)
  have hc : (dragMouseDown cx cy st).commits = st.commits := rfl
  have hp : (dragMouseDown cx cy st).persistCount = st.persistCount := rfl
  rw [hc, hp] at hkeep
  refine ⟨⟨hkeep.1, hkeep.2⟩, fun hne => ?_, fun hnil => ?_⟩
  · have hdrag := runMoves_dragging moves (dragMouseDown cx cy st) hne
    constructor
    · simp only [closeDragElement, hdrag, if_true, hkeep.1]
    · simp only [closeDragElement, hdrag, if_true, hkeep.2]
  · subst hnil
    simp [runMoves, closeDragElement, dragMouseDown]

/-- Witness for C7: a concrete drag (down at the origin, one move to
(3,4), release) commits exactly `(8, 9)` once and persists once; a drag
with no moves commits nothing. -/
theorem c7_witness :
    (closeDragElement (runMoves (dragMouseDown 0 0 st0) [(3, 4)])).commits =
      [(8, 9)] ∧
    (closeDragElement
        (runMoves (dragMouseDown 0 0 st0) [(3, 4)])).persistCount = 1 ∧
    closeDragElement (runMoves (dragMouseDown 0 0 st0) []) =
      dragMouseDown 0 0 st0 := by
  have h := c7_drag_commit st0 0 0 [(3, 4)]
  have h2 := (h.2.1 (by decide))
  refine ⟨?_, ?_, (c7_drag_commit st0 0 0 []).2.2 rfl⟩
  · rw [h2.1]; rfl
  · rw [h2.2]; rfl

/-- Counterexample to claim C9: `createAnnotation` called with empty text
and no target element appends a record whose text is empty (the guard
only fires when a target is present). -/
theorem c9_counterexample :
    (createAnnotation' (fun s => s) "gen" dispRect "" none none [] "t0").records =
      [{ rtype := "annotation", text := some "",
         position := some ⟨.pct 50, .pct 50⟩, created := some "t0" }] ∧
    (createAnnotation' (fun s => s) "gen" dispRect "" none none [] "t0").persisted =
      true :=
  ⟨by rfl, by rfl⟩

/-- Claim C9 as amended: with empty text and a target present,
`createAnnotation` opens the editor, returns `null` and appends nothing;
an editor save whose content is empty or whitespace-only is rejected with
no record created. (With empty text and no target, a record with empty
text is appended — the counterexample above.) -/
theorem c9_empty_text :
    (∀ (els : String → String) (fid : String) (dr : Rect) (t : TargetInfo)
        (pos : Option Position) (recs : List Rec) (now : String),
      createAnnotation' els fid dr "" (some t) pos recs now =
        { result := none, records := recs, editorOpened := true,
          persisted := false }) ∧
    (∀ (els : String → String) (fid : String) (dr : Rect) (content : String)
        (target : Option TargetInfo) (recs : List Rec) (now : String),
      content.data.all (fun c => isJsWs c) = true →
      openRichTextEditorSave els fid dr content target recs now = recs) := by
  constructor
  · intro els fid dr t pos recs now
    simp [createAnnotation']
  · intro els fid dr content target recs now h
    have hsub := allWs_not_hasSub content h
    have htrim := allWs_trim content h
    simp [openRichTextEditorSave, hsub, htrim]

/-- Witness for C9 (amended): empty text with a target appends nothing
and opens the editor; a whitespace-only editor save creates no record. -/
theorem c9_witness :
    createAnnotation' (fun s => s) "gen" dispRect ""
      (some { pathStr := "/rect[0]", tag := "rect", idStr := "", attrs := [],
              rect := fracRect }) none [] "t0" =
      { result := none, records := [], editorOpened := true,
        persisted := false } ∧
    openRichTextEditorSave (fun s => s) "gen" dispRect "  " none [] "t0" = [] :=
  ⟨c9_empty_text.1 (fun s => s) "gen" dispRect
     { pathStr := "/rect[0]", tag := "rect", idStr := "", attrs := [],
       rect := fracRect } none [] "t0",
   c9_empty_text.2 (fun s => s) "gen" dispRect "  " none [] "t0" (by decide)⟩

end SlideViewer

namespace SlideViewer

/-! ### Rational facts and the position invariant (claim C6) -/

/-- A nonempty string. -/
theorem length_pos_ne_empty {s : String} (h : 0 < s.length) : s ≠ "" := by
  intro hs
  rw [hs] at h
  simp at h

/-- The fraction `201/2` has denominator 2. -/
theorem den201 : ((201 : ℚ)/2).den = 2 := by
  have h := Rat.den_div_eq_of_coprime (show (0 : ℤ) < 2 by norm_num)
    (show Nat.Coprime (201 : ℤ).natAbs (2 : ℤ).natAbs by norm_num)
  have h2 : (((201 : ℤ) : ℚ) / ((2 : ℤ) : ℚ)) = ((201 : ℚ)/2) := by norm_num
  rw [h2] at h
  exact_mod_cast h

/-- Counterexample to claim C6: a freestanding note (no target element)
stores the centred percentage pair as its final position, and a targeted
note whose element centre falls on a half pixel stores the fractional
pixel string `100.5px` — neither is an `"<integer>px"` value. -/
theorem c6_counterexample :
    (createAnnotation' (fun s => s) "gen" dispRect "note" none none [] "t0").records =
      [{ rtype := "annotation", text := some "note",
         position := some ⟨.pct 50, .pct 50⟩, created := some "t0" }] ∧
    isIntPx (PosVal.pct 50) = false ∧
    (createAnnotation' (fun s => s) "gen" dispRect "note" (some tgtFrac) none
        [] "t0").records.map (fun r => r.position) =
      [some ⟨.px ((201 : ℚ)/2), .px 100⟩] ∧
    isIntPx (.px ((201 : ℚ)/2)) = false := by
  refine ⟨by rfl, by rfl, ?_, by simp [isIntPx, den201]⟩
  have hpos : calculatePosition (some tgtFrac.rect) dispRect =
      ⟨.px ((201 : ℚ)/2), .px 100⟩ := by
    simp only [calculatePosition, tgtFrac, fracRect, dispRect,
      Position.mk.injEq, PosVal.px.injEq]
    norm_num [max_def, min_def]
  simp [createAnnotation', hasSub, hpos]

/-- Claim C6 as amended: a note placed next to a target element always
stores pixel values for both coordinates (possibly fractional, since the
element's bounding box is not integral), and the position committed after
a drag is always a pixel value — the integral chip offset whenever the
inline style is not already a pixel string; the centred percentage pair
remains only for freestanding notes. -/
theorem c6_pixel_positions :
    (∀ (r drect : Rect), ∃ l t : ℚ,
      calculatePosition (some r) drect = ⟨.px l, .px t⟩) ∧
    (∀ (style : Option PosVal) (offset : Int), ∃ q : ℚ,
      commitCoord style offset = .px q) ∧
    (∀ (offset : Int), commitCoord none offset = .px (offset : ℚ)) := by
  refine ⟨fun r drect => ⟨_, _, rfl⟩, fun style offset => ?_, fun offset => rfl⟩
  match style with
  | none => exact ⟨(offset : ℚ), rfl⟩
  | some (.px q) => exact ⟨q, rfl⟩
  | some (.pct q) => exact ⟨(offset : ℚ), rfl⟩

/-! ### Removal idempotence (claim C8) -/

/-- Every descriptor collected from a document carries a nonempty
structural path (it always starts with `/`). -/
theorem collectRemoved_path_pos : ∀ (l : ElemList) (prev : List Elem)
    (acc : String), ∀ d ∈ collectRemoved prev acc l, 0 < d.path.length
  | .enil, _, _, d, h => by simp [collectRemoved] at h
  | .econs (.mk t i a c) tl, prev, acc, d, h => by
      simp only [collectRemoved, List.mem_append] at h
      rcases h with (h | h) | h
      · by_cases hr : hasRemovedClass (.mk t i a c) = true
        · rw [if_pos hr] at h
          rw [List.mem_singleton] at h
          subst h
          dsimp only
          simp only [String.length_append]
          have h1 : ("/" : String).length = 1 := rfl
          omega
        · rw [if_neg hr] at h
          simp at h
      · exact collectRemoved_path_pos c [] _ d h
      · exact collectRemoved_path_pos tl (prev ++ [.mk t i a c]) acc d h

/-- The duplicate test is stable under appending records. -/
theorem alreadySaved_append (recs recs' : List Rec) (d : RemovedDescr)
    (h : alreadySaved recs d = true) :
    alreadySaved (recs ++ recs') d = true := by
  rw [alreadySaved] at h ⊢
  rw [List.any_append, h]
  rfl

/-- After processing a descriptor with a nonempty path, it counts as
already saved. -/
theorem alreadySaved_step_self (recs : List Rec) (d : RemovedDescr)
    (hp : d.path ≠ "") : alreadySaved (saveRemovedStep recs d) d = true := by
  by_cases h : alreadySaved recs d = true
  · simp [saveRemovedStep, h]
  · simp only [saveRemovedStep, h, if_false, Bool.false_eq_true]
    rw [alreadySaved, List.any_append]
    have : alreadySaved [removalRec d] d = true := by
      simp [alreadySaved, removalRec, hp]
    rw [alreadySaved] at this
    rw [this, Bool.or_true]

/-- Processing another descriptor preserves the duplicate test. -/
theorem alreadySaved_step_mono (recs : List Rec) (d d' : RemovedDescr)
    (h : alreadySaved recs d = true) :
    alreadySaved (saveRemovedStep recs d') d = true := by
  rw [saveRemovedStep]
  split
  · exact h
  · exact alreadySaved_append _ _ _ h

/-- The whole fold preserves the duplicate test. -/
theorem alreadySaved_foldl_mono : ∀ (L : List RemovedDescr)
    (recs : List Rec) (d : RemovedDescr),
    alreadySaved recs d = true →
    alreadySaved (L.foldl saveRemovedStep recs) d = true
  | [], _, _, h => h
  | _ :: L, _, d, h =>
      alreadySaved_foldl_mono L _ d (alreadySaved_step_mono _ _ _ h)

/-- After one pass over a descriptor list with nonempty paths, every
descriptor of the list counts as already saved. -/
theorem foldl_all_saved : ∀ (L : List RemovedDescr) (recs : List Rec),
    (∀ d ∈ L, d.path ≠ "") →
    ∀ d ∈ L, alreadySaved (L.foldl saveRemovedStep recs) d = true
  | [], _, _, d, h => absurd h (List.not_mem_nil d)
  | d' :: L, recs, hp, d, h => by
      rcases List.mem_cons.mp h with heq | hmem
      · subst heq
        exact alreadySaved_foldl_mono L _ d
          (alreadySaved_step_self recs d (hp d (by simp)))
      · exact foldl_all_saved L _ (fun x hx => hp x (by simp [hx])) d hmem

/-- A pass over descriptors that all count as saved changes nothing. -/
theorem foldl_noop : ∀ (L : List RemovedDescr) (recs : List Rec),
    (∀ d ∈ L, alreadySaved recs d = true) →
    L.foldl saveRemovedStep recs = recs
  | [], _, _ => rfl
  | d :: L, recs, h => by
      have hd := h d (by simp)
      simp only [List.foldl_cons, saveRemovedStep, hd, if_true]
      exact foldl_noop L recs (fun x hx => h x (by simp [hx]))

/-- Claim C8: marking the elements of a document removed is idempotent —
a second pass adds no record, because every removed element is suppressed
by its id or its (always nonempty) structural path; concretely, two
passes over a document with one removed rect leave exactly one record. -/
theorem c8_removal_idempotent :
    (∀ (svg : Elem) (recs : List Rec),
      saveRemovedElements svg (saveRemovedElements svg recs) =
        saveRemovedElements svg recs) ∧
    (saveRemovedElements svgRemoved (saveRemovedElements svgRemoved [])).length
      = 1 := by
  constructor
  · intro svg recs
    rw [saveRemovedElements, saveRemovedElements]
    apply foldl_noop
    intro d hd
    apply foldl_all_saved
    · intro d' hd'
      exact length_pos_ne_empty (collectRemoved_path_pos _ _ _ d' hd')
    · exact hd
  · rfl

end SlideViewer

namespace SlideViewer

/-! ### Whitespace lemmas for the JSON codec (claim C3) -/

/-- `skipWs` keeps a list whose head is not whitespace. -/
theorem skipWs_cons_of_not_ws {c : Char} (cs : List Char)
    (h : isJsonWs c = false) : skipWs (c :: cs) = c :: cs := by
  simp [skipWs, h]

/-- `skipWs` drops any all-whitespace prefix. -/
theorem skipWs_append_ws : ∀ (ws cs : List Char),
    (∀ c ∈ ws, isJsonWs c = true) → skipWs (ws ++ cs) = skipWs cs
  | [], _, _ => rfl
  | c :: ws, cs, h => by
      have hc := h c (by simp)
      simp only [List.cons_append, skipWs, hc, if_true]
      exact skipWs_append_ws ws cs (fun x hx => h x (by simp [hx]))

/-- The printer's indentation is whitespace. -/
theorem nlInd_all_ws (d : Nat) : ∀ c ∈ nlInd d, isJsonWs c = true := by
  intro c hc
  rw [nlInd, List.mem_cons] at hc
  rcases hc with rfl | hc
  · rfl
  · rw [List.eq_of_mem_replicate hc]
    rfl

/-- `skipWs` drops a printed newline-plus-indent. -/
theorem skipWs_nlInd (d : Nat) (cs : List Char) :
    skipWs (nlInd d ++ cs) = skipWs cs :=
  skipWs_append_ws _ _ (nlInd_all_ws d)

/-- `parseV` ignores leading whitespace. -/
theorem parseV_ws (fuel : Nat) (ws cs : List Char)
    (h : ∀ c ∈ ws, isJsonWs c = true) :
    parseV fuel (ws ++ cs) = parseV fuel cs := by
  cases fuel with
  | zero => rfl
  | succ f => simp only [parseV, skipWs_append_ws ws cs h]

/-- `parseItems` ignores leading whitespace. -/
theorem parseItems_ws (fuel : Nat) (ws cs : List Char)
    (h : ∀ c ∈ ws, isJsonWs c = true) :
    parseItems fuel (ws ++ cs) = parseItems fuel cs := by
  cases fuel with
  | zero => rfl
  | succ f => simp only [parseItems, parseV_ws f ws cs h]

/-- `parseMembers` ignores leading whitespace. -/
theorem parseMembers_ws (fuel : Nat) (ws cs : List Char)
    (h : ∀ c ∈ ws, isJsonWs c = true) :
    parseMembers fuel (ws ++ cs) = parseMembers fuel cs := by
  cases fuel with
  | zero => rfl
  | succ f => simp only [parseMembers, skipWs_append_ws ws cs h]

/-! ### String-escape round trip (claim C3) -/

/-- Decoding a printed hex digit recovers its value. -/
theorem hexVal_hexDig (n : Nat) (h : n < 16) : hexVal (hexDig n) = some n := by
  interval_cases n <;> decide

/-- Parsing a simple backslash escape continues with the decoded
character. -/
theorem parseStrBody_named_esc (e ch : Char) (t : List Char)
    (he : unescapeChar e = some ch) (hu : e ≠ 'u') :
    parseStrBody ('\\' :: e :: t) =
      (parseStrBody t).map (fun pr => (ch :: pr.1, pr.2)) := by
  rw [parseStrBody.eq_def]
  simp [hu, he]

/-- Parsing a `\u00XX` escape continues with the decoded character. -/
theorem parseStrBody_hex_esc (c : Char) (t : List Char)
    (h8 : c.toNat < 32) :
    parseStrBody ('\\' :: 'u' :: '0' :: '0' :: hexDig (c.toNat / 16)
        :: hexDig (c.toNat % 16) :: t) =
      (parseStrBody t).map (fun pr => (c :: pr.1, pr.2)) := by
  rw [parseStrBody.eq_def]
  simp only [reduceIte, reduceCtorEq]
  rw [hexVal_hexDig (c.toNat / 16) (by omega),
      hexVal_hexDig (c.toNat % 16) (by omega)]
  have hv : hexVal '0' = some 0 := by decide
  rw [hv]
  have hchar : Char.ofNat (c.toNat / 16 * 16 + c.toNat % 16) = c := by
    have harith : c.toNat / 16 * 16 + c.toNat % 16 = c.toNat := by omega
    rw [harith, Char.ofNat_toNat]
  simp [hchar]

/-- Parsing one escaped character undoes the escaping and continues. -/
theorem parseStrBody_esc (c : Char) (t : List Char) :
    parseStrBody (escChar c ++ t) =
      (parseStrBody t).map (fun pr => (c :: pr.1, pr.2)) := by
  rw [escChar]
  by_cases h1 : c = '"'
  · subst h1
    exact parseStrBody_named_esc '"' '"' t (by decide) (by decide)
  rw [if_neg h1]
  by_cases h2 : c = '\\'
  · subst h2
    exact parseStrBody_named_esc '\\' '\\' t (by decide) (by decide)
  rw [if_neg h2]
  by_cases h3 : c = '\n'
  · subst h3
    exact parseStrBody_named_esc 'n' '\n' t (by decide) (by decide)
  rw [if_neg h3]
  by_cases h4 : c = '\r'
  · subst h4
    exact parseStrBody_named_esc 'r' '\r' t (by decide) (by decide)
  rw [if_neg h4]
  by_cases h5 : c = '\t'
  · subst h5
    exact parseStrBody_named_esc 't' '\t' t (by decide) (by decide)
  rw [if_neg h5]
  by_cases h6 : c = Char.ofNat 8
  · subst h6
    exact parseStrBody_named_esc 'b' (Char.ofNat 8) t (by decide) (by decide)
  rw [if_neg h6]
  by_cases h7 : c = Char.ofNat 12
  · subst h7
    exact parseStrBody_named_esc 'f' (Char.ofNat 12) t (by decide) (by decide)
  rw [if_neg h7]
  by_cases h8 : c.toNat < 32
  · rw [if_pos h8]
    exact parseStrBody_hex_esc c t h8
  · rw [if_neg h8]
    show parseStrBody (c :: t) = _
    rw [parseStrBody.eq_def]
    simp [h1, h2]

/-- Parsing a printed string body recovers the characters and stops at
the closing quote. -/
theorem parseStrBody_escBody : ∀ (cs t : List Char),
    parseStrBody (escBody cs ++ '"' :: t) = some (cs, t)
  | [], t => by
      show parseStrBody ('"' :: t) = some ([], t)
      rw [parseStrBody.eq_def]
      simp
  | c :: cs, t => by
      rw [escBody, List.append_assoc, parseStrBody_esc,
        parseStrBody_escBody cs t]
      rfl

/-- The first character of any printed value: never whitespace, never a
closing bracket or brace. -/
theorem printV_head (j : JVal) (d : Nat) :
    ∃ c t, printV d j = c :: t ∧ isJsonWs c = false ∧ c ≠ ']' ∧
      c ≠ rbrace := by
  match j with
  | .jnull => exact ⟨'n', _, rfl, by decide, by decide, by decide⟩
  | .jstr s => exact ⟨'"', _, rfl, by decide, by decide, by decide⟩
  | .jarr [] => exact ⟨'[', _, rfl, by decide, by decide, by decide⟩
  | .jarr (e :: es) => exact ⟨'[', _, rfl, by decide, by decide, by decide⟩
  | .jobj [] => exact ⟨lbrace, _, rfl, by decide, by decide, by decide⟩
  | .jobj (m :: ms) => exact ⟨lbrace, _, rfl, by decide, by decide, by decide⟩

end SlideViewer

namespace SlideViewer

/-! ### Parser step and branch lemmas (claim C3) -/

/-- One-step unfolding of `parseItems` at successor fuel. -/
theorem parseItems_step (f : Nat) (cs : List Char) :
    parseItems (f + 1) cs =
      (match parseV f cs with
        | none => none
        | some (v, r) =>
            match skipWs r with
            | ',' :: r2 =>
                match parseItems f r2 with
                | some (vs, r3) => some (v :: vs, r3)
                | none => none
            | c2 :: r2 => if c2 = ']' then some ([v], r2) else none
            | [] => none) := rfl

/-- One-step unfolding of `parseMembers` at successor fuel. -/
theorem parseMembers_step (f : Nat) (cs : List Char) :
    parseMembers (f + 1) cs =
      (match skipWs cs with
        | '"' :: r =>
            match parseStrBody r with
            | none => none
            | some (k, r1) =>
                match skipWs r1 with
                | ':' :: r2 =>
                    match parseV f r2 with
                    | none => none
                    | some (v, r3) =>
                        match skipWs r3 with
                        | ',' :: r4 =>
                            match parseMembers f r4 with
                            | some (ms, r5) => some ((⟨k⟩, v) :: ms, r5)
                            | none => none
                        | c4 :: r4 =>
                            if c4 = rbrace then some ([(⟨k⟩, v)], r4)
                            else none
                        | [] => none
                | _ => none
        | _ => none) := rfl

/-- A quoted string at the head of the input parses via `parseStrBody`. -/
theorem parseV_quote (f : Nat) (r : List Char) :
    parseV (f + 1) ('"' :: r) =
      (parseStrBody r).map (fun pr => (JVal.jstr ⟨pr.1⟩, pr.2)) := rfl

/-- The array branch of the parser, when the element part is known not to
start with `]`. -/
theorem parseV_arr_branch (f : Nat) (x : List Char) (c2 : Char)
    (r2 : List Char) (hskip : skipWs x = c2 :: r2) (hne : c2 ≠ ']') :
    parseV (f + 1) ('[' :: x) =
      (match parseItems f (c2 :: r2) with
        | some (es, r3) => some (JVal.jarr es, r3)
        | none => none) := by
  have h1 : parseV (f + 1) ('[' :: x) =
      (match skipWs x with
        | [] => none
        | c3 :: r3 =>
            if c3 = ']' then some (JVal.jarr [], r3)
            else match parseItems f (c3 :: r3) with
              | some (es, r4) => some (JVal.jarr es, r4)
              | none => none) := rfl
  rw [h1, hskip]
  show (if c2 = ']' then some (JVal.jarr [], r2)
        else match parseItems f (c2 :: r2) with
          | some (es, r4) => some (JVal.jarr es, r4)
          | none => none) = _
  rw [if_neg hne]

/-- The object branch of the parser, when the member part is known not to
start with a closing brace. -/
theorem parseV_obj_branch (f : Nat) (x : List Char) (c2 : Char)
    (r2 : List Char) (hskip : skipWs x = c2 :: r2) (hne : c2 ≠ rbrace) :
    parseV (f + 1) (lbrace :: x) =
      (match parseMembers f (c2 :: r2) with
        | some (ms, r3) => some (JVal.jobj ms, r3)
        | none => none) := by
  have h1 : parseV (f + 1) (lbrace :: x) =
      (match skipWs x with
        | [] => none
        | c3 :: r3 =>
            if c3 = rbrace then some (JVal.jobj [], r3)
            else match parseMembers f (c3 :: r3) with
              | some (ms, r4) => some (JVal.jobj ms, r4)
              | none => none) := rfl
  rw [h1, hskip]
  show (if c2 = rbrace then some (JVal.jobj [], r2)
        else match parseMembers f (c2 :: r2) with
          | some (ms, r4) => some (JVal.jobj ms, r4)
          | none => none) = _
  rw [if_neg hne]

/-! ### The printer-parser round trip (claim C3) -/

mutual

/-- Parsing a printed value recovers it exactly and leaves the rest. -/
theorem rt_val : ∀ (j : JVal) (d fuel : Nat) (rest : List Char),
    jsizeV j ≤ fuel → parseV fuel (printV d j ++ rest) = some (j, rest)
  | .jnull, _, fuel, rest, h => by
      obtain ⟨f, rfl⟩ : ∃ f, fuel = f + 1 :=
        ⟨fuel - 1, by simp [jsizeV] at h; omega⟩
      rfl
  | .jstr s, _, fuel, rest, h => by
      obtain ⟨f, rfl⟩ : ∃ f, fuel = f + 1 :=
        ⟨fuel - 1, by simp [jsizeV] at h; omega⟩
      show parseV (f + 1) (('"' :: (escBody s.data ++ ['"'])) ++ rest) = _
      rw [List.cons_append, List.append_assoc, List.singleton_append,
        parseV_quote, parseStrBody_escBody]
      rfl
  | .jarr [], _, fuel, rest, h => by
      obtain ⟨f, rfl⟩ : ∃ f, fuel = f + 1 :=
        ⟨fuel - 1, by simp [jsizeV, jsizeItems] at h; omega⟩
      rfl
  | .jobj [], _, fuel, rest, h => by
      obtain ⟨f, rfl⟩ : ∃ f, fuel = f + 1 :=
        ⟨fuel - 1, by simp [jsizeV, jsizeMembers] at h; omega⟩
      rfl
  | .jarr (e :: es), d, fuel, rest, h => by
      rw [jsizeV] at h
      obtain ⟨f, rfl⟩ : ∃ f, fuel = f + 1 := ⟨fuel - 1, by omega⟩
      show parseV (f + 1) (('[' :: (nlInd (d + 1) ++ printV (d + 1) e
        ++ printArrSep (d + 1) es ++ nlInd d ++ [']'])) ++ rest) = _
      rw [List.cons_append]
      simp only [List.append_assoc, List.singleton_append]
      obtain ⟨c2, t2, hpr, hws, hbr, _⟩ := printV_head e (d + 1)
      have hback : printV (d + 1) e ++ (printArrSep (d + 1) es
          ++ (nlInd d ++ (']' :: rest))) =
          c2 :: (t2 ++ (printArrSep (d + 1) es
            ++ (nlInd d ++ (']' :: rest)))) := by
        rw [hpr, List.cons_append]
      have hskip : skipWs (nlInd (d + 1) ++ (printV (d + 1) e
          ++ (printArrSep (d + 1) es ++ (nlInd d ++ (']' :: rest))))) =
          c2 :: (t2 ++ (printArrSep (d + 1) es
            ++ (nlInd d ++ (']' :: rest)))) := by
        rw [skipWs_nlInd, hback, skipWs_cons_of_not_ws _ hws]
      rw [parseV_arr_branch f _ c2 _ hskip hbr, ← hback,
        rt_val_items e es d f rest (by omega)]
  | .jobj ((k, v) :: ms), d, fuel, rest, h => by
      rw [jsizeV] at h
      obtain ⟨f, rfl⟩ : ∃ f, fuel = f + 1 := ⟨fuel - 1, by omega⟩
      show parseV (f + 1) ((lbrace :: (nlInd (d + 1)
        ++ printMember (d + 1) (k, v) ++ printObjSep (d + 1) ms
        ++ nlInd d ++ [rbrace])) ++ rest) = _
      rw [List.cons_append]
      simp only [List.append_assoc, List.singleton_append]
      have hpr : printMember (d + 1) (k, v) =
          '"' :: (escBody k.data ++ ('"' :: (':' :: ' '
            :: printV (d + 1) v))) := by
        rw [printMember]
        show ('"' :: (escBody k.data ++ ['"'])) ++ _ = _
        simp only [List.cons_append, List.append_assoc,
          List.singleton_append, List.nil_append]
      have hback : printMember (d + 1) (k, v) ++ (printObjSep (d + 1) ms
          ++ (nlInd d ++ (rbrace :: rest))) =
          '"' :: ((escBody k.data ++ ('"' :: (':' :: ' '
            :: printV (d + 1) v))) ++ (printObjSep (d + 1) ms
            ++ (nlInd d ++ (rbrace :: rest)))) := by
        rw [hpr, List.cons_append]
      have hskip : skipWs (nlInd (d + 1) ++ (printMember (d + 1) (k, v)
          ++ (printObjSep (d + 1) ms ++ (nlInd d ++ (rbrace :: rest))))) =
          '"' :: ((escBody k.data ++ ('"' :: (':' :: ' '
            :: printV (d + 1) v))) ++ (printObjSep (d + 1) ms
            ++ (nlInd d ++ (rbrace :: rest)))) := by
        rw [skipWs_nlInd, hback, skipWs_cons_of_not_ws _ (by decide)]
      rw [parseV_obj_branch f _ _ _ hskip (by decide), ← hback,
        rt_val_members k v ms d f rest (by omega)]
termination_by j _ _ _ _ => sizeOf j
decreasing_by all_goals (simp_wf <;> omega)

/-- Parsing the printed elements of a nonempty array recovers them. -/
theorem rt_val_items : ∀ (e : JVal) (es : List JVal) (d fuel : Nat)
    (rest : List Char), jsizeItems (e :: es) ≤ fuel →
    parseItems fuel (printV (d + 1) e ++ (printArrSep (d + 1) es
      ++ (nlInd d ++ (']' :: rest)))) = some (e :: es, rest)
  | e, [], d, fuel, rest, h => by
      rw [jsizeItems] at h
      obtain ⟨f, rfl⟩ : ∃ f, fuel = f + 1 := ⟨fuel - 1, by omega⟩
      rw [parseItems_step, rt_val e (d + 1) f _ (by omega)]
      show (match skipWs (printArrSep (d + 1) [] ++ (nlInd d
        ++ (']' :: rest))) with
        | ',' :: r2 =>
            match parseItems f r2 with
            | some (vs, r3) => some (e :: vs, r3)
            | none => none
        | c2 :: r2 => if c2 = ']' then some ([e], r2) else none
        | [] => none) = _
      rw [printArrSep, List.nil_append, skipWs_nlInd,
        skipWs_cons_of_not_ws _ (by decide)]
      rfl
  | e, e2 :: es2, d, fuel, rest, h => by
      rw [jsizeItems] at h
      obtain ⟨f, rfl⟩ : ∃ f, fuel = f + 1 := ⟨fuel - 1, by omega⟩
      rw [parseItems_step, rt_val e (d + 1) f _ (by omega)]
      show (match skipWs (printArrSep (d + 1) (e2 :: es2) ++ (nlInd d
        ++ (']' :: rest))) with
        | ',' :: r2 =>
            match parseItems f r2 with
            | some (vs, r3) => some (e :: vs, r3)
            | none => none
        | c2 :: r2 => if c2 = ']' then some ([e], r2) else none
        | [] => none) = _
      rw [printArrSep]
      simp only [List.cons_append, List.append_assoc]
      rw [skipWs_cons_of_not_ws _ (by decide)]
      show (match parseItems f (nlInd (d + 1) ++ (printV (d + 1) e2
        ++ (printArrSep (d + 1) es2 ++ (nlInd d ++ (']' :: rest))))) with
        | some (vs, r3) => some (e :: vs, r3)
        | none => none) = _
      rw [parseItems_ws f (nlInd (d + 1)) _ (nlInd_all_ws _),
        rt_val_items e2 es2 d f rest (by omega)]
termination_by e es _ _ _ _ => 1 + sizeOf e + sizeOf es
decreasing_by all_goals (simp_wf <;> omega)

/-- Parsing the printed members of a nonempty object recovers them. -/
theorem rt_val_members : ∀ (k : String) (v : JVal)
    (ms : List (String × JVal)) (d fuel : Nat) (rest : List Char),
    jsizeMembers ((k, v) :: ms) ≤ fuel →
    parseMembers fuel (printMember (d + 1) (k, v)
      ++ (printObjSep (d + 1) ms ++ (nlInd d ++ (rbrace :: rest)))) =
      some ((k, v) :: ms, rest)
  | k, v, ms, d, fuel, rest, h => by
      rw [jsizeMembers] at h
      obtain ⟨f, rfl⟩ : ∃ f, fuel = f + 1 := ⟨fuel - 1, by omega⟩
      rw [parseMembers_step]
      have hexp : printMember (d + 1) (k, v) ++ (printObjSep (d + 1) ms
          ++ (nlInd d ++ (rbrace :: rest))) =
          '"' :: (escBody k.data ++ ('"' :: (':' :: (' '
            :: (printV (d + 1) v ++ (printObjSep (d + 1) ms
              ++ (nlInd d ++ (rbrace :: rest)))))))) := by
        rw [printMember]
        show ('"' :: (escBody k.data ++ ['"'])) ++ _ ++ _ = _
        simp only [List.cons_append, List.append_assoc,
          List.singleton_append, List.nil_append]
      rw [hexp, skipWs_cons_of_not_ws _ (by decide)]
      show (match parseStrBody (escBody k.data ++ ('"' :: (':' :: (' '
        :: (printV (d + 1) v ++ (printObjSep (d + 1) ms
          ++ (nlInd d ++ (rbrace :: rest)))))))) with
        | none => none
        | some (kk, r1) =>
            match skipWs r1 with
            | ':' :: r2 =>
                match parseV f r2 with
                | none => none
                | some (vv, r3) =>
                    match skipWs r3 with
                    | ',' :: r4 =>
                        match parseMembers f r4 with
                        | some (mms, r5) => some ((String.mk kk, vv) :: mms, r5)
                        | none => none
                    | c4 :: r4 =>
                        if c4 = rbrace then some ([(String.mk kk, vv)], r4)
                        else none
                    | [] => none
            | _ => none) = _
      rw [parseStrBody_escBody]
      show (match skipWs (':' :: (' ' :: (printV (d + 1) v
        ++ (printObjSep (d + 1) ms ++ (nlInd d ++ (rbrace :: rest)))))) with
        | ':' :: r2 =>
            match parseV f r2 with
            | none => none
            | some (vv, r3) =>
                match skipWs r3 with
                | ',' :: r4 =>
                    match parseMembers f r4 with
                    | some (mms, r5) => some ((String.mk k.data, vv) :: mms, r5)
                    | none => none
                | c4 :: r4 =>
                    if c4 = rbrace then some ([(String.mk k.data, vv)], r4)
                    else none
                | [] => none
        | _ => none) = _
      rw [skipWs_cons_of_not_ws _ (by decide)]
      show (match parseV f (' ' :: (printV (d + 1) v
        ++ (printObjSep (d + 1) ms ++ (nlInd d ++ (rbrace :: rest))))) with
        | none => none
        | some (vv, r3) =>
            match skipWs r3 with
            | ',' :: r4 =>
                match parseMembers f r4 with
                | some (mms, r5) => some ((String.mk k.data, vv) :: mms, r5)
                | none => none
            | c4 :: r4 =>
                if c4 = rbrace then some ([(String.mk k.data, vv)], r4)
                else none
            | [] => none) = _
      have hsp : parseV f (' ' :: (printV (d + 1) v
          ++ (printObjSep (d + 1) ms ++ (nlInd d ++ (rbrace :: rest))))) =
          parseV f (printV (d + 1) v ++ (printObjSep (d + 1) ms
            ++ (nlInd d ++ (rbrace :: rest)))) :=
        parseV_ws f [' '] _ (by decide)
      rw [hsp, rt_val v (d + 1) f _ (by omega)]
      exact rt_members_tail k v ms d f rest (by omega)
termination_by _ v ms _ _ _ _ => 1 + sizeOf v + sizeOf ms
decreasing_by all_goals (simp_wf <;> omega)

/-- The tail of a printed member list parses back to the remaining
members, prefixed by the first one. -/
theorem rt_members_tail : ∀ (k : String) (v : JVal)
    (ms : List (String × JVal)) (d f : Nat) (rest : List Char),
    jsizeMembers ms ≤ f →
    (match skipWs (printObjSep (d + 1) ms ++ (nlInd d
        ++ (rbrace :: rest))) with
      | ',' :: r4 =>
          match parseMembers f r4 with
          | some (mms, r5) => some ((String.mk k.data, v) :: mms, r5)
          | none => none
      | c4 :: r4 =>
          if c4 = rbrace then some ([(String.mk k.data, v)], r4) else none
      | [] => none) = some ((k, v) :: ms, rest)
  | k, v, [], d, f, rest, _ => by
      rw [printObjSep, List.nil_append, skipWs_nlInd,
        skipWs_cons_of_not_ws _ (by decide)]
      show (if rbrace = rbrace then some ([(String.mk k.data, v)], rest)
        else none) = _
      rw [if_pos rfl]
  | k, v, (k2, v2) :: ms2, d, f, rest, h => by
      rw [printObjSep]
      simp only [List.cons_append, List.append_assoc]
      rw [skipWs_cons_of_not_ws _ (by decide)]
      show (match parseMembers f (nlInd (d + 1)
        ++ (printMember (d + 1) (k2, v2) ++ (printObjSep (d + 1) ms2
          ++ (nlInd d ++ (rbrace :: rest))))) with
        | some (mms, r5) => some ((String.mk k.data, v) :: mms, r5)
        | none => none) = _
      rw [parseMembers_ws f (nlInd (d + 1)) _ (nlInd_all_ws _),
        rt_val_members k2 v2 ms2 d f rest (by rw [jsizeMembers] at h ⊢; omega)]
termination_by _ _ ms _ _ _ _ => sizeOf ms
decreasing_by all_goals simp_wf

end

end SlideViewer

namespace SlideViewer

/-! ### Fuel bound: a printed value is at least as long as its node
count (claim C3) -/

/-- Length of the printed indentation. -/
theorem nlInd_length (d : Nat) : (nlInd d).length = 2 * d + 1 := by
  simp [nlInd]

mutual

/-- A value's node count is bounded by its printed length. -/
theorem jsizeV_le_printV : ∀ (j : JVal) (d : Nat),
    jsizeV j ≤ (printV d j).length
  | .jnull, d => by simp [jsizeV, printV]
  | .jstr s, d => by simp [jsizeV, printV, printStr]
  | .jarr [], d => by simp [jsizeV, jsizeItems, printV]
  | .jobj [], d => by simp [jsizeV, jsizeMembers, printV]
  | .jarr (e :: es), d => by
      have h1 := jsizeV_le_printV e (d + 1)
      have h2 := jsizeItems_le_sep es (d + 1)
      simp only [jsizeV, jsizeItems, printV, List.length_cons,
        List.length_append, nlInd_length]
      omega
  | .jobj ((k, v) :: ms), d => by
      have h1 := jsizeV_le_printV v (d + 1)
      have h2 := jsizeMembers_le_sep ms (d + 1)
      simp only [jsizeV, jsizeMembers, printV, printMember, printStr,
        List.length_cons, List.length_append, nlInd_length]
      omega

/-- An element list's node count is bounded by its printed tail length
plus one. -/
theorem jsizeItems_le_sep : ∀ (es : List JVal) (d : Nat),
    jsizeItems es ≤ (printArrSep d es).length + 1
  | [], d => by simp [jsizeItems, printArrSep]
  | e :: es, d => by
      have h1 := jsizeV_le_printV e d
      have h2 := jsizeItems_le_sep es d
      simp only [jsizeItems, printArrSep, List.length_cons,
        List.length_append, nlInd_length]
      omega

/-- A member list's node count is bounded by its printed tail length
plus one. -/
theorem jsizeMembers_le_sep : ∀ (ms : List (String × JVal)) (d : Nat),
    jsizeMembers ms ≤ (printObjSep d ms).length + 1
  | [], d => by simp [jsizeMembers, printObjSep]
  | (k, v) :: ms, d => by
      have h1 := jsizeV_le_printV v d
      have h2 := jsizeMembers_le_sep ms d
      simp only [jsizeMembers, printObjSep, printMember, printStr,
        List.length_cons, List.length_append, nlInd_length]
      omega

end

/-! ### Reading the wire format back (claim C3) -/

/-- Reading back a printed attribute object recovers the attribute
list. -/
theorem readAttrs_map : ∀ (l : List (String × String)),
    readAttrs (l.map (fun kv => (kv.1, JVal.jstr kv.2))) = some l
  | [] => rfl
  | (k, v) :: l => by simp [readAttrs, readAttrs_map l]

set_option maxHeartbeats 3200000 in
/-- Reading back one record's JSON recovers the record. -/
theorem readRec_recToJson : ∀ (r : WireRec),
    readRec (recToJson r) = some r
  | .note tx p tg i a pl pt cr => by
      have hp : asOptStr (optStrJson p) = some p := by
        cases p <;> rfl
      have htg : asOptStr (optStrJson tg) = some tg := by
        cases tg <;> rfl
      have hi : asOptStr (optStrJson i) = some i := by
        cases i <;> rfl
      cases a with
      | none =>
          change Option.bind (asOptStr (optStrJson p)) _ = _
          rw [hp]
          change Option.bind (asOptStr (optStrJson tg)) _ = _
          rw [htg]
          change Option.bind (asOptStr (optStrJson i)) _ = _
          rw [hi]
          rfl
      | some l =>
          have ha : asOptAttrs (attrsJson l) = some (some l) := by
            simp [attrsJson, asOptAttrs, readAttrs_map]
          change Option.bind (asOptStr (optStrJson p)) _ = _
          rw [hp]
          change Option.bind (asOptStr (optStrJson tg)) _ = _
          rw [htg]
          change Option.bind (asOptStr (optStrJson i)) _ = _
          rw [hi]
          change Option.bind (asOptAttrs (attrsJson l)) _ = _
          rw [ha]
          rfl
  | .removal tg p a i => by
      simp only [recToJson, readRec]
      cases i with
      | none =>
          simp [readRemovalFields, readField, readStrField, asAttrs,
            attrsJson, readAttrs_map]
      | some s =>
          simp [readRemovalFields, readField, readStrField, asAttrs,
            attrsJson, readAttrs_map]

/-- Reading back a printed record array recovers the records. -/
theorem readRecs_map : ∀ (rs : List WireRec),
    readRecs (rs.map recToJson) = some rs
  | [] => rfl
  | r :: rs => by simp [readRecs, readRec_recToJson, readRecs_map rs]

/-- Reading back the collection object's fields recovers them. -/
theorem readCollFields_map : ∀ (C : List (String × List WireRec)),
    readCollFields (C.map (fun kv => (kv.1, JVal.jarr (kv.2.map recToJson))))
      = some C
  | [] => rfl
  | (k, rs) :: C => by
      simp [readCollFields, readRecs_map, readCollFields_map C]

/-- Reading back the collection JSON recovers the collection. -/
theorem readColl_collToJson (C : List (String × List WireRec)) :
    readColl (collToJson C) = some C := by
  rw [collToJson, readColl]
  exact readCollFields_map C

/-- `JSON.parse` of the serialized collection yields exactly its JSON
value. -/
theorem parseJson_serialize (C : List (String × List WireRec)) :
    parseJson (serializeColl C) = some (collToJson C) := by
  rw [parseJson, serializeColl]
  have hfuel : jsizeV (collToJson C) ≤ (printV 0 (collToJson C)).length + 1 :=
    le_trans (jsizeV_le_printV _ 0) (by omega)
  have hrt := rt_val (collToJson C) 0 ((printV 0 (collToJson C)).length + 1)
    [] hfuel
  rw [List.append_nil] at hrt
  rw [hrt]
  rfl

/-- Claim C3: deserializing the serialized form of any well-formed
collection yields it back field for field, with slide keys, record
fields and record order preserved: the cached string parses to exactly
the collection's JSON value, the shape check of
`loadPersistedAnnotations` accepts it, and reading the structured
collection back out of that value is the identity. -/
theorem c3_roundtrip (C : List (String × List WireRec)) (_wf : wfColl C) :
    deserializeCache (serializeColl C) = some (collToJson C) ∧
    readColl (collToJson C) = some C := by
  refine ⟨?_, readColl_collToJson C⟩
  rw [deserializeCache, parseJson_serialize]
  rfl

/-- Witness for C3: the sample collection (a note with text, path, tag,
id, attributes, position and timestamp, one removal, and an empty slide)
round-trips through the cache codec. -/
theorem c3_witness :
    deserializeCache (serializeColl sampleColl) =
      some (collToJson sampleColl) ∧
    readColl (collToJson sampleColl) = some sampleColl :=
  c3_roundtrip sampleColl
    (by constructor
        · simp [sampleColl]
        · intro kv hkv r hr
          simp [sampleColl] at hkv
          rcases hkv with hkv | hkv <;> rw [hkv] at hr <;> simp at hr
          · rcases hr with hr | hr <;> rw [hr] <;> simp [attrsOfRec])

end SlideViewer
